import Mathlib

/-!
Shallow embedding of `src/hotspot/share/gc/z/zNMethod.cpp` (ZGC's interface
to compiled nmethods) and proofs about it.

Modelling conventions:
- An `Oop` is a managed-object reference value: `null` (the C++ `NULL`),
  `nonOopWord` (the `Universe::non_oop_word()` sentinel), or a real object
  `obj n`.
- The nmethod's raw oops table (`oops_begin()..oops_end()`) is a list of
  slot values indexed by position; the code stream holding immediate oop
  slots is a memory `Nat → Oop` indexed by slot address.
- Callbacks (`OopClosure::do_oop`) are value transformers `Oop → Oop`
  applied in place to the visited slot; every visit is also recorded as an
  event so that theorems can speak about which slots were visited and in
  what order.
- Stateful C++ functions become Lean functions from state to
  (state × event trace); a fatal assertion becomes an `Option` result.
-/

namespace ZNM

/-- A managed-object reference value as seen from compiled code. -/
inductive Oop where
  | null
  | nonOopWord
  | obj (n : Nat)
deriving DecidableEq, Repr

/-- One entry of the nmethod's relocation metadata, as produced by
`RelocIterator`: whether it is an oop-typed relocation
(`iter.type() == relocInfo::oop_type`), whether the oop is immediate
(`oop_is_immediate()`), and the slot address (`oop_addr()`). -/
structure Relocation where
  isOopType : Bool
  isImmediate : Bool
  addr : Nat
deriving DecidableEq, Repr

/-- The state of one compiled unit (`nmethod`) that this file's code reads
or writes.  `mem` is the code-stream memory holding immediate oop slots,
addressed by `Relocation.addr`. -/
structure NMethod where
  oopsTable : List Oop
  mem : Nat → Oop
  relocations : List Relocation
  alive : Bool
  unloading : Bool
  depsFlushed : Bool
  unlinkedFromMethod : Bool
  armed : Bool
  cachesCleared : Bool
  madeUnloaded : Bool

/-- `ZNMethodDataOops`: the immutable reference-set snapshot attached to an
nmethod — the recorded immediate oop slot addresses and the
has-non-immediates flag. -/
structure ZNMethodDataOops where
  immediates : List Nat
  has_non_immediates : Bool
deriving DecidableEq, Repr

/-- `ZNMethodData`: the per-nmethod GC metadata record.  It owns the
per-nmethod reentrant lock (modelled by its identity `lockId`) and the
current oops snapshot. -/
structure ZNMethodData where
  lockId : Nat
  oops : ZNMethodDataOops
deriving DecidableEq, Repr

/-- Global per-unit state: the nmethod itself, its gc-data attachment slot
(`nm->gc_data<ZNMethodData>()`), whether the unit is in `ZNMethodTable`,
and a counter supplying fresh lock identities for `ZNMethodData::create`. -/
structure UnitGlobal where
  nm : NMethod
  gc_data : Option ZNMethodData
  registered : Bool
  next_lock_id : Nat

/-- An observable visit performed by `ZNMethod::nmethod_oops_do`:
a callback invocation on raw-oops-table slot `i`, a callback invocation on
the immediate slot at code address `a`, or a call to the nmethod's
`fix_oop_relocations()` routine. -/
inductive VisitEvent where
  | visitRaw (i : Nat)
  | visitImm (a : Nat)
  | fixRelocations
deriving DecidableEq, Repr

/-- The first loop of `nmethod_oops_do`: walk the raw oops table from
index `i`, and on every slot whose value is not `non_oop_word` apply the
callback in place and record the visit. -/
def process_oops_table (cl : Oop → Oop) (i : Nat) : List Oop → List Oop × List VisitEvent
  | [] => ([], [])
  | x :: xs =>
    let rest := process_oops_table cl (i + 1) xs
    if x = Oop.nonOopWord then
      (x :: rest.1, rest.2)
    else
      (cl x :: rest.1, VisitEvent.visitRaw i :: rest.2)

/-- The second loop of `nmethod_oops_do`: walk the snapshot's immediate
slot addresses in order; on every address whose current memory value is
not `non_oop_word` apply the callback in place and record the visit. -/
def process_immediates (cl : Oop → Oop) : List Nat → (Nat → Oop) → (Nat → Oop) × List VisitEvent
  | [], mem => (mem, [])
  | a :: as, mem =>
    if mem a = Oop.nonOopWord then
      process_immediates cl as mem
    else
      let mem' := fun b => if b = a then cl (mem a) else mem b
      let rest := process_immediates cl as mem'
      (rest.1, VisitEvent.visitImm a :: rest.2)

/-- `ZNMethod::nmethod_oops_do(nm, cl)` for a given snapshot `oops`
(the code reads it from `gc_data(nm)->oops()`): process the raw oops
table, then the recorded immediate oops, then — exactly when the snapshot
has non-immediate oops — call the nmethod's own `fix_oop_relocations()`
(external code, recorded as an event). -/
def nmethod_oops_do (cl : Oop → Oop) (nm : NMethod) (oops : ZNMethodDataOops) :
    NMethod × List VisitEvent :=
  let rawRes := process_oops_table cl 0 nm.oopsTable
  let immRes := process_immediates cl oops.immediates nm.mem
  let fixEvs := if oops.has_non_immediates then [VisitEvent.fixRelocations] else []
  ({ nm with oopsTable := rawRes.1, mem := immRes.1 }, rawRes.2 ++ immRes.2 ++ fixEvs)

/-- `nmethod_oops_do` lifted to the per-unit global state: the snapshot is
read from the unit's gc-data attachment slot.  The C++ code dereferences
`gc_data(nm)` unconditionally, so it is only ever called on a unit whose
metadata record exists; theorems therefore assume `s.gc_data = some d`. -/
def nmethod_oops_do_unit (cl : Oop → Oop) (s : UnitGlobal) : UnitGlobal × List VisitEvent :=
  match s.gc_data with
  | none => (s, [])
  | some d =>
    let r := nmethod_oops_do cl s.nm d.oops
    ({ s with nm := r.1 }, r.2)

/-- The relocation walk at the top of `ZNMethod::attach_gc_data`: scan the
nmethod's relocations in order; skip non-oop relocations; a non-immediate
oop relocation sets the flag; an immediate oop relocation whose current
value (`oop_value()`, read from the slot at `oop_addr()`) is not `NULL`
has its slot address pushed onto the immediate-oops list. -/
def collect_reloc_oops (nm : NMethod) : List Relocation → List Nat × Bool
  | [] => ([], false)
  | r :: rs =>
    let rest := collect_reloc_oops nm rs
    if !r.isOopType then
      rest
    else if !r.isImmediate then
      (rest.1, true)
    else if nm.mem r.addr ≠ Oop.null then
      (r.addr :: rest.1, rest.2)
    else
      rest

/-- `ZNMethod::attach_gc_data(nm)`: classify the oop relocations, create a
`ZNMethodData` record (with a fresh lock) only if the unit has none, and
swap in a new `ZNMethodDataOops` snapshot (the old one is destroyed). -/
def attach_gc_data (s : UnitGlobal) : UnitGlobal :=
  let c := collect_reloc_oops s.nm s.nm.relocations
  let new_oops : ZNMethodDataOops := { immediates := c.1, has_non_immediates := c.2 }
  match s.gc_data with
  | none =>
    { s with
      gc_data := some { lockId := s.next_lock_id, oops := new_oops },
      next_lock_id := s.next_lock_id + 1 }
  | some d =>
    { s with gc_data := some { d with oops := new_oops } }

/-- `ZNMethod::detach_gc_data(nm)`: destroy the metadata record and clear
the attachment slot. -/
def detach_gc_data (s : UnitGlobal) : UnitGlobal :=
  { s with gc_data := none }

/-- `ZNMethod::lock_for_nmethod(nm)`: the per-unit lock owned by the
metadata record, or `none` when the unit has no metadata record. -/
def lock_for_nmethod (s : UnitGlobal) : Option Nat :=
  match s.gc_data with
  | none => none
  | some d => some d.lockId

/-- `ZNMethod::disarm_nmethod(nm)`: ask the barrier set to disarm the
unit's entry barrier (when a barrier set is configured, which it always is
under this collector). -/
def disarm_nmethod (nm : NMethod) : NMethod :=
  { nm with armed := false }

/-- `ZNMethod::register_nmethod(nm)`: attach gc data (creating the record
on first registration), insert into `ZNMethodTable`, then disarm the
unit's entry barrier. -/
def register_nmethod (s : UnitGlobal) : UnitGlobal :=
  let s1 := attach_gc_data s
  let s2 := { s1 with registered := true }
  { s2 with nm := disarm_nmethod s2.nm }

/-- An observable step of `ZNMethod::unregister_nmethod`. -/
inductive RegEvent where
  | wait_until_iteration_done
  | table_unregister
  | detach
deriving DecidableEq, Repr

/-- `ZNMethod::unregister_nmethod(nm)`: fatal assertion (modelled as
`none`) unless the caller holds `CodeCache_lock`; when called from the
code-cache sweeper thread, first wait until any in-flight table iteration
is done; then remove the unit from `ZNMethodTable` and destroy and detach
its gc data. -/
def unregister_nmethod (holds_code_cache_lock : Bool) (is_sweeper : Bool)
    (s : UnitGlobal) : Option (UnitGlobal × List RegEvent) :=
  if !holds_code_cache_lock then
    none
  else
    let pre := if is_sweeper then [RegEvent.wait_until_iteration_done] else []
    let s1 := { s with registered := false }
    let s2 := detach_gc_data s1
    some (s2, pre ++ [RegEvent.table_unregister, RegEvent.detach])

/-- A registration-lifecycle operation on one unit, applied atomically:
registration, or unregistration by a caller who (as required) holds the
code-cache lock.  `apply_life_op` is the corresponding state transformer. -/
inductive LifeOp where
  | reg
  | unreg (is_sweeper : Bool)
deriving DecidableEq, Repr

/-- Apply one lifecycle operation to the unit state.  Unregistration is
taken on its non-fatal path (lock held), which always yields a state. -/
def apply_life_op (s : UnitGlobal) : LifeOp → UnitGlobal
  | LifeOp.reg => register_nmethod s
  | LifeOp.unreg sw => ((unregister_nmethod true sw s).map Prod.fst).getD s

/-- The attachment invariant: the metadata record exists exactly when the
unit is in the registration table. -/
def AttachInv (s : UnitGlobal) : Prop :=
  s.gc_data.isSome = s.registered

/-- An observable step of `ZNMethodUnlinkClosure::do_nmethod`. -/
inductive UnlinkEvent where
  | flush_dependencies
  | unlink_from_method
  | oops (e : VisitEvent)
  | disarm
  | unload_caches (ok : Bool)
deriving DecidableEq, Repr

/-- `ZNMethodUnlinkClosure::do_nmethod(nm)` on one unit.  `failed` is the
closure's shared `_failed` flag as this unit reads it; `heal` is the
`ZNMethodOopClosure` healing callback (external code, a value
transformer); `cache_ok` is the outcome of the external, fallible
`nm->unload_nmethod_caches(unloading_occurred)` call.  Returns the new
unit state, the new shared flag, and the trace of this unit's steps.
If the pass already failed, or the unit is not alive, nothing is done.
Under the unit's metadata lock: an unloading unit has its dependencies
flushed and is unlinked from its Method; otherwise the unit's oops are
healed via `nmethod_oops_do`, its entry barrier is disarmed, and its
compiled ICs and exception caches are cleared, setting the shared flag on
failure. -/
def unlink_do_nmethod (heal : Oop → Oop) (unloading_occurred : Bool) (failed : Bool)
    (s : UnitGlobal) (cache_ok : Bool) : UnitGlobal × Bool × List UnlinkEvent :=
  if failed then
    (s, failed, [])
  else if !s.nm.alive then
    (s, failed, [])
  else if s.nm.unloading then
    let nm1 := { s.nm with depsFlushed := true }
    let nm2 := { nm1 with unlinkedFromMethod := true }
    ({ s with nm := nm2 }, failed,
      [UnlinkEvent.flush_dependencies, UnlinkEvent.unlink_from_method])
  else
    let r := nmethod_oops_do_unit heal s
    let s2 := { r.1 with nm := disarm_nmethod r.1.nm }
    let s3 := { s2 with nm := { s2.nm with cachesCleared := cache_ok } }
    let failed' := if cache_ok then failed else true
    (s3, failed',
      r.2.map UnlinkEvent.oops ++ [UnlinkEvent.disarm, UnlinkEvent.unload_caches cache_ok])

/-- One unlink pass over a list of units (each paired with its external
cache-clearing outcome), threading the closure's shared `_failed` flag
from left to right.  Returns the new unit states, the final flag, and the
concatenated trace. -/
def run_unlink_pass_from (heal : Oop → Oop) (unloading_occurred : Bool) :
    Bool → List (UnitGlobal × Bool) → List UnitGlobal × Bool × List UnlinkEvent
  | failed, [] => ([], failed, [])
  | failed, u :: us =>
    let r := unlink_do_nmethod heal unloading_occurred failed u.1 u.2
    let rest := run_unlink_pass_from heal unloading_occurred r.2.1 us
    (r.1 :: rest.1, rest.2.1, r.2.2 ++ rest.2.2)

/-- One `ZNMethodUnlinkTask` execution: a fresh `ZNMethodUnlinkClosure`
(its `_failed` flag starts `false`) run over all units.  The task
succeeded when the final flag is still `false`. -/
def run_unlink_pass (heal : Oop → Oop) (unloading_occurred : Bool)
    (units : List (UnitGlobal × Bool)) : List UnitGlobal × Bool × List UnlinkEvent :=
  run_unlink_pass_from heal unloading_occurred false units

/-- Pair each unit with the outcome `oks i` of its cache-clearing call,
by position, starting at index `i`. -/
def with_cache_oks (oks : Nat → Bool) : Nat → List UnitGlobal → List (UnitGlobal × Bool)
  | _, [] => []
  | i, s :: ss => (s, oks i) :: with_cache_oks oks (i + 1) ss

/-- An observable step of the `ZNMethod::unlink` driver loop: a completed
pass (with its success bit), leaving the suspendible thread set, and
refilling the inline-cache stub pool. -/
inductive DriverEvent where
  | pass_done (success : Bool)
  | leave_sts
  | refill_ic_stubs
deriving DecidableEq, Repr

/-- `ZNMethod::unlink(workers, unloading_occurred)`: run unlink passes
until one succeeds.  `cache_oks k i` is the external cache-clearing
outcome for unit `i` during attempt `k`; `fuel` bounds the number of
attempts the model will take (the C++ loop is unbounded; `none` means the
fuel ran out before a pass succeeded).  After a failed pass the driver
leaves the suspendible thread set, refills the IC stub pool, and retries
from scratch with a fresh closure. -/
def unlink_fuel (heal : Oop → Oop) (unloading_occurred : Bool) (cache_oks : Nat → Nat → Bool) :
    Nat → Nat → List UnitGlobal → Option (List UnitGlobal × List DriverEvent)
  | 0, _, _ => none
  | fuel + 1, k, units =>
    let pass := run_unlink_pass heal unloading_occurred (with_cache_oks (cache_oks k) 0 units)
    if pass.2.1 then
      match unlink_fuel heal unloading_occurred cache_oks fuel (k + 1) pass.1 with
      | none => none
      | some r =>
        some (r.1, DriverEvent.pass_done false :: DriverEvent.leave_sts ::
          DriverEvent.refill_ic_stubs :: r.2)
    else
      some (pass.1, [DriverEvent.pass_done true])

/-- `make_unloaded`.  Modelled from the spec: `nmethod::make_unloaded()` is
external to this file; per the spec's purge phase it finalizes the unit —
"mark unloaded, release its code storage association". -/
def make_unloaded (nm : NMethod) : NMethod :=
  { nm with madeUnloaded := true }

/-- `ZNMethodPurgeClosure::do_nmethod(nm)`: finalize the unit exactly when
it is still alive and still unloading. -/
def purge_do_nmethod (nm : NMethod) : NMethod :=
  if nm.alive && nm.unloading then make_unloaded nm else nm

/-- `ZNMethod::purge(workers)`: one `ZNMethodPurgeTask` pass applying the
purge closure to every registered unit, with no retry. -/
def purge (units : List NMethod) : List NMethod :=
  units.map purge_do_nmethod

/-! ## Lemmas about the raw-oops-table walk -/

/-- Which raw-table visits the walk records: exactly the in-range indices
whose slot value is not the non-oop sentinel, offset by the start index. -/
theorem mem_process_oops_table (cl : Oop → Oop) (k : Nat) (xs : List Oop) (i : Nat) :
    VisitEvent.visitRaw k ∈ (process_oops_table cl i xs).2 ↔
      ∃ j, j < xs.length ∧ xs.getD j Oop.null ≠ Oop.nonOopWord ∧ k = i + j := by
  induction xs generalizing i with
  | nil => simp [process_oops_table]
  | cons x xs ih =>
    by_cases hx : x = Oop.nonOopWord
    · simp only [process_oops_table, if_pos hx]
      rw [ih (i + 1)]
      constructor
      · rintro ⟨j, hj, hne, hk⟩
        refine ⟨j + 1, by simpa using hj, by simpa using hne, by omega⟩
      · rintro ⟨j, hj, hne, hk⟩
        cases j with
        | zero => simp [hx] at hne
        | succ j =>
          refine ⟨j, by simpa using hj, by simpa using hne, by omega⟩
    · simp only [process_oops_table, if_neg hx, List.mem_cons]
      rw [ih (i + 1)]
      constructor
      · rintro (he | ⟨j, hj, hne, hk⟩)
        · refine ⟨0, by simp, by simpa using hx, by simpa using he⟩
        · refine ⟨j + 1, by simpa using hj, by simpa using hne, by omega⟩
      · rintro ⟨j, hj, hne, hk⟩
        cases j with
        | zero => exact Or.inl (by simp [hk])
        | succ j =>
          exact Or.inr ⟨j, by simpa using hj, by simpa using hne, by omega⟩

/-- Every event recorded by the raw-table walk is a raw-slot visit. -/
theorem process_oops_table_shape (cl : Oop → Oop) (xs : List Oop) (i : Nat) (e : VisitEvent)
    (he : e ∈ (process_oops_table cl i xs).2) : ∃ j, e = VisitEvent.visitRaw j := by
  induction xs generalizing i with
  | nil => simp [process_oops_table] at he
  | cons x xs ih =>
    by_cases hx : x = Oop.nonOopWord
    · simp only [process_oops_table, if_pos hx] at he
      exact ih (i + 1) he
    · simp only [process_oops_table, if_neg hx, List.mem_cons] at he
      rcases he with he | he
      · exact ⟨i, he⟩
      · exact ih (i + 1) he

/-! ## Lemmas about the immediate-oops walk -/

/-- Which immediate visits the walk records, stated against a reference
memory `mem0` that agrees with the walk's starting memory on which slots
hold the sentinel.  Requires that the callback never writes the sentinel
(true of the collector's callbacks, which map object references to object
references). -/
theorem mem_process_immediates (cl : Oop → Oop)
    (hcl : ∀ v, v ≠ Oop.nonOopWord → cl v ≠ Oop.nonOopWord) (a : Nat)
    (as : List Nat) (mem mem0 : Nat → Oop)
    (hmask : ∀ b, mem b = Oop.nonOopWord ↔ mem0 b = Oop.nonOopWord) :
    VisitEvent.visitImm a ∈ (process_immediates cl as mem).2 ↔
      a ∈ as ∧ mem0 a ≠ Oop.nonOopWord := by
  induction as generalizing mem with
  | nil => simp [process_immediates]
  | cons a' as ih =>
    by_cases ha' : mem a' = Oop.nonOopWord
    · simp only [process_immediates, if_pos ha']
      rw [ih mem hmask, List.mem_cons]
      constructor
      · rintro ⟨hmem, hne⟩
        exact ⟨Or.inr hmem, hne⟩
      · rintro ⟨ha | hmem, hne⟩
        · exact absurd ((hmask a').mp (ha ▸ ha')) (ha ▸ hne)
        · exact ⟨hmem, hne⟩
    · simp only [process_immediates, if_neg ha', List.mem_cons]
      have hmask' : ∀ b, (fun b => if b = a' then cl (mem a') else mem b) b = Oop.nonOopWord ↔
          mem0 b = Oop.nonOopWord := by
        intro b
        by_cases hb : b = a'
        · subst hb
          simp only [if_pos rfl]
          constructor
          · intro hc
            exact absurd hc (hcl _ ha')
          · intro h0
            exact absurd ((hmask b).mpr h0) ha'
        · simpa [hb] using hmask b
      rw [ih _ hmask']
      constructor
      · rintro (he | ⟨hmem, hne⟩)
        · have ha : a = a' := by
            simpa using he
          subst ha
          exact ⟨Or.inl rfl, fun h0 => ha' ((hmask a).mpr h0)⟩
        · exact ⟨Or.inr hmem, hne⟩
      · rintro ⟨ha | hmem, hne⟩
        · exact Or.inl (by simp [ha])
        · exact Or.inr ⟨hmem, hne⟩

/-- Every event recorded by the immediate-oops walk is an immediate visit. -/
theorem process_immediates_shape (cl : Oop → Oop) (as : List Nat) (mem : Nat → Oop)
    (e : VisitEvent) (he : e ∈ (process_immediates cl as mem).2) :
    ∃ a, e = VisitEvent.visitImm a := by
  induction as generalizing mem with
  | nil => simp [process_immediates] at he
  | cons a' as ih =>
    by_cases ha' : mem a' = Oop.nonOopWord
    · simp only [process_immediates, if_pos ha'] at he
      exact ih _ he
    · simp only [process_immediates, if_neg ha', List.mem_cons] at he
      rcases he with he | he
      · exact ⟨a', he⟩
      · exact ih _ he

/-- Claim C1: for a registered unit, `nmethod_oops_do` performs exactly the
three-part traversal: it invokes the callback on exactly the raw-oops-table
slots whose current value is not the non-oop sentinel, on exactly the
snapshot's recorded immediate slots whose current value is not the
sentinel, and it calls the unit's relocation-fix routine if and only if
the snapshot's non-immediate flag is set; no other slots are visited.
(The callback hypothesis: the collector's callbacks never write the
sentinel into a visited slot.) -/
theorem nmethod_oops_do_visits (cl : Oop → Oop) (nm : NMethod) (oops : ZNMethodDataOops)
    (hcl : ∀ v, v ≠ Oop.nonOopWord → cl v ≠ Oop.nonOopWord) :
    (∀ i, VisitEvent.visitRaw i ∈ (nmethod_oops_do cl nm oops).2 ↔
        i < nm.oopsTable.length ∧ nm.oopsTable.getD i Oop.null ≠ Oop.nonOopWord) ∧
    (∀ a, VisitEvent.visitImm a ∈ (nmethod_oops_do cl nm oops).2 ↔
        a ∈ oops.immediates ∧ nm.mem a ≠ Oop.nonOopWord) ∧
    (VisitEvent.fixRelocations ∈ (nmethod_oops_do cl nm oops).2 ↔
        oops.has_non_immediates = true) := by
  have htr : (nmethod_oops_do cl nm oops).2 =
      (process_oops_table cl 0 nm.oopsTable).2 ++
        (process_immediates cl oops.immediates nm.mem).2 ++
        (if oops.has_non_immediates then [VisitEvent.fixRelocations] else []) := rfl
  refine ⟨fun i => ?_, fun a => ?_, ?_⟩
  · rw [htr]
    simp only [List.mem_append]
    constructor
    · rintro ((h | h) | h)
      · rcases (mem_process_oops_table cl i nm.oopsTable 0).mp h with ⟨j, hj, hne, hk⟩
        refine ⟨by omega, by simpa [show i = j by omega] using hne⟩
      · rcases process_immediates_shape cl oops.immediates nm.mem _ h with ⟨a, ha⟩
        exact absurd ha (by simp)
      · rcases oops.has_non_immediates with _ | _ <;> simp_all
    · rintro ⟨hlt, hne⟩
      exact Or.inl (Or.inl ((mem_process_oops_table cl i nm.oopsTable 0).mpr
        ⟨i, hlt, hne, by omega⟩))
  · rw [htr]
    simp only [List.mem_append]
    constructor
    · rintro ((h | h) | h)
      · rcases process_oops_table_shape cl nm.oopsTable 0 _ h with ⟨j, hj⟩
        exact absurd hj (by simp)
      · exact (mem_process_immediates cl hcl a oops.immediates nm.mem nm.mem
          (fun b => Iff.rfl)).mp h
      · rcases oops.has_non_immediates with _ | _ <;> simp_all
    · intro h
      exact Or.inl (Or.inr ((mem_process_immediates cl hcl a oops.immediates nm.mem nm.mem
        (fun b => Iff.rfl)).mpr h))
  · rw [htr]
    simp only [List.mem_append]
    by_cases hni : oops.has_non_immediates = true
    · simp [hni]
    · constructor
      · rintro ((h | h) | h)
        · rcases process_oops_table_shape cl nm.oopsTable 0 _ h with ⟨j, hj⟩
          exact absurd hj (by simp)
        · rcases process_immediates_shape cl oops.immediates nm.mem _ h with ⟨a, ha⟩
          exact absurd ha (by simp)
        · simp [hni] at h
      · intro h
        exact absurd h hni

/-- A concrete unit for exercising the visitor theorems: three raw slots
(object, sentinel, null), immediate slots at addresses 0 (an object) and
1 (the sentinel), and non-immediate oops present. -/
def nmVisit : NMethod :=
  { oopsTable := [Oop.obj 1, Oop.nonOopWord, Oop.null]
    mem := fun a => if a = 0 then Oop.obj 2 else if a = 1 then Oop.nonOopWord else Oop.null
    relocations := []
    alive := true
    unloading := false
    depsFlushed := false
    unlinkedFromMethod := false
    armed := true
    cachesCleared := false
    madeUnloaded := false }

/-- The snapshot paired with `nmVisit`. -/
def oopsVisit : ZNMethodDataOops :=
  { immediates := [0, 1], has_non_immediates := true }

/-- Witness for C1 at a concrete unit: slot 0 of the raw table and
immediate address 0 are visited, immediate address 1 (holding the
sentinel) is not, and the relocation-fix routine is invoked. -/
theorem nmethod_oops_do_visits_witness :
    VisitEvent.visitRaw 0 ∈ (nmethod_oops_do id nmVisit oopsVisit).2 ∧
    VisitEvent.visitImm 0 ∈ (nmethod_oops_do id nmVisit oopsVisit).2 ∧
    ¬ VisitEvent.visitImm 1 ∈ (nmethod_oops_do id nmVisit oopsVisit).2 ∧
    VisitEvent.fixRelocations ∈ (nmethod_oops_do id nmVisit oopsVisit).2 := by
  have h := nmethod_oops_do_visits id nmVisit oopsVisit (fun v hv => hv)
  refine ⟨(h.1 0).mpr (by decide), (h.2.1 0).mpr ?_, fun hm => ?_, h.2.2.mpr rfl⟩
  · exact ⟨by decide, by decide⟩
  · exact absurd ((h.2.1 1).mp hm).2 (by decide)

/-! ## Idempotence of the visitor -/

/-- The raw-table walk preserves the table's length. -/
theorem process_oops_table_length (cl : Oop → Oop) (xs : List Oop) (i : Nat) :
    (process_oops_table cl i xs).1.length = xs.length := by
  induction xs generalizing i with
  | nil => simp [process_oops_table]
  | cons x xs ih =>
    by_cases hx : x = Oop.nonOopWord <;>
      simp [process_oops_table, hx, ih]

/-- When the callback never writes the sentinel, the raw-table walk
preserves which slots hold the sentinel. -/
theorem process_oops_table_mask (cl : Oop → Oop)
    (hcl : ∀ v, v ≠ Oop.nonOopWord → cl v ≠ Oop.nonOopWord)
    (xs : List Oop) (i j : Nat) :
    (process_oops_table cl i xs).1.getD j Oop.null = Oop.nonOopWord ↔
      xs.getD j Oop.null = Oop.nonOopWord := by
  induction xs generalizing i j with
  | nil => simp [process_oops_table]
  | cons x xs ih =>
    by_cases hx : x = Oop.nonOopWord
    · cases j with
      | zero => simp [process_oops_table, hx]
      | succ j => simpa [process_oops_table, hx] using ih (i + 1) j
    · cases j with
      | zero =>
        simp only [process_oops_table, if_neg hx, List.getD_cons_zero]
        exact iff_of_false (hcl x hx) hx
      | succ j => simpa [process_oops_table, hx] using ih (i + 1) j

/-- The raw-table walk's trace depends only on which slots hold the
sentinel. -/
theorem process_oops_table_congr (cl : Oop → Oop) (xs ys : List Oop) (i : Nat)
    (hlen : xs.length = ys.length)
    (hmask : ∀ j, xs.getD j Oop.null = Oop.nonOopWord ↔ ys.getD j Oop.null = Oop.nonOopWord) :
    (process_oops_table cl i xs).2 = (process_oops_table cl i ys).2 := by
  induction xs generalizing ys i with
  | nil =>
    cases ys with
    | nil => rfl
    | cons y ys => simp at hlen
  | cons x xs ih =>
    cases ys with
    | nil => simp at hlen
    | cons y ys =>
      have h0 : x = Oop.nonOopWord ↔ y = Oop.nonOopWord := by
        simpa using hmask 0
      have htail : ∀ j, xs.getD j Oop.null = Oop.nonOopWord ↔
          ys.getD j Oop.null = Oop.nonOopWord := by
        intro j
        simpa using hmask (j + 1)
      by_cases hx : x = Oop.nonOopWord
      · have hy : y = Oop.nonOopWord := h0.mp hx
        simpa [process_oops_table, hx, hy] using ih ys (i + 1) (by simpa using hlen) htail
      · have hy : ¬y = Oop.nonOopWord := fun h => hx (h0.mpr h)
        simpa [process_oops_table, hx, hy] using ih ys (i + 1) (by simpa using hlen) htail

/-- When the callback never writes the sentinel, the immediate-oops walk
preserves which memory slots hold the sentinel. -/
theorem process_immediates_mask (cl : Oop → Oop)
    (hcl : ∀ v, v ≠ Oop.nonOopWord → cl v ≠ Oop.nonOopWord)
    (as : List Nat) (mem : Nat → Oop) (b : Nat) :
    (process_immediates cl as mem).1 b = Oop.nonOopWord ↔ mem b = Oop.nonOopWord := by
  induction as generalizing mem with
  | nil => simp [process_immediates]
  | cons a' as ih =>
    by_cases ha' : mem a' = Oop.nonOopWord
    · simpa [process_immediates, ha'] using ih mem
    · simp only [process_immediates, if_neg ha']
      rw [ih]
      by_cases hb : b = a'
      · subst hb
        simp only [if_pos rfl]
        exact iff_of_false (hcl _ ha') ha'
      · simp [hb]

/-- The immediate-oops walk's trace depends only on which memory slots
hold the sentinel (callback never writes the sentinel). -/
theorem process_immediates_congr (cl : Oop → Oop)
    (hcl : ∀ v, v ≠ Oop.nonOopWord → cl v ≠ Oop.nonOopWord)
    (as : List Nat) (mem1 mem2 : Nat → Oop)
    (hmask : ∀ b, mem1 b = Oop.nonOopWord ↔ mem2 b = Oop.nonOopWord) :
    (process_immediates cl as mem1).2 = (process_immediates cl as mem2).2 := by
  induction as generalizing mem1 mem2 with
  | nil => rfl
  | cons a' as ih =>
    by_cases ha' : mem1 a' = Oop.nonOopWord
    · have hb' : mem2 a' = Oop.nonOopWord := (hmask a').mp ha'
      simpa [process_immediates, ha', hb'] using ih mem1 mem2 hmask
    · have hb' : ¬mem2 a' = Oop.nonOopWord := fun h => ha' ((hmask a').mpr h)
      simp only [process_immediates, if_neg ha', if_neg hb']
      have hmask' : ∀ b, (fun b => if b = a' then cl (mem1 a') else mem1 b) b = Oop.nonOopWord ↔
          (fun b => if b = a' then cl (mem2 a') else mem2 b) b = Oop.nonOopWord := by
        intro b
        by_cases hb : b = a'
        · simp only [hb, if_pos rfl]
          exact iff_of_false (hcl _ ha') (hcl _ hb')
        · simpa [hb] using hmask b
      simp [ih _ _ hmask']

/-- Claim C7: the reference visitor is idempotent.  For a registered unit
(whose metadata record holds snapshot `d`), running `nmethod_oops_do`
twice — the second run on the unit exactly as the first run left it,
i.e. with no intervening change to slots or snapshot — records the same
visit trace both times, and neither run changes the unit's metadata
record or its reference-set snapshot.  (Callback hypothesis as in the
visit characterization: the collector's callbacks never write the
sentinel.) -/
theorem nmethod_oops_do_idempotent (cl : Oop → Oop) (s : UnitGlobal) (d : ZNMethodData)
    (hd : s.gc_data = some d)
    (hcl : ∀ v, v ≠ Oop.nonOopWord → cl v ≠ Oop.nonOopWord) :
    (nmethod_oops_do_unit cl (nmethod_oops_do_unit cl s).1).2 =
      (nmethod_oops_do_unit cl s).2 ∧
    (nmethod_oops_do_unit cl s).1.gc_data = s.gc_data ∧
    (nmethod_oops_do_unit cl (nmethod_oops_do_unit cl s).1).1.gc_data = s.gc_data := by
  have h1 : nmethod_oops_do_unit cl s =
      ({ s with nm := (nmethod_oops_do cl s.nm d.oops).1 },
        (nmethod_oops_do cl s.nm d.oops).2) := by
    simp [nmethod_oops_do_unit, hd]
  have hgc1 : (nmethod_oops_do_unit cl s).1.gc_data = s.gc_data := by
    rw [h1]
  have h2 : nmethod_oops_do_unit cl (nmethod_oops_do_unit cl s).1 =
      ({ (nmethod_oops_do_unit cl s).1 with
          nm := (nmethod_oops_do cl (nmethod_oops_do_unit cl s).1.nm d.oops).1 },
        (nmethod_oops_do cl (nmethod_oops_do_unit cl s).1.nm d.oops).2) := by
    simp [nmethod_oops_do_unit, hgc1, hd]
  refine ⟨?_, hgc1, by rw [h2]; simpa using hgc1⟩
  rw [h2, h1]
  simp only [nmethod_oops_do]
  have hraw : (process_oops_table cl 0
        (process_oops_table cl 0 s.nm.oopsTable).1).2 =
      (process_oops_table cl 0 s.nm.oopsTable).2 :=
    process_oops_table_congr cl _ _ 0 (process_oops_table_length cl _ 0)
      (fun j => process_oops_table_mask cl hcl _ 0 j)
  have himm : (process_immediates cl d.oops.immediates
        (process_immediates cl d.oops.immediates s.nm.mem).1).2 =
      (process_immediates cl d.oops.immediates s.nm.mem).2 :=
    process_immediates_congr cl hcl _ _ _
      (fun b => process_immediates_mask cl hcl _ _ b)
  simp [hraw, himm]

/-- Witness for C7: the concrete visitor state used for C1's witness,
with its snapshot attached, run twice with the identity callback. -/
theorem nmethod_oops_do_idempotent_witness :
    (nmethod_oops_do_unit id
        (nmethod_oops_do_unit id
          ⟨nmVisit, some ⟨7, oopsVisit⟩, true, 8⟩).1).2 =
      (nmethod_oops_do_unit id ⟨nmVisit, some ⟨7, oopsVisit⟩, true, 8⟩).2 ∧
    (nmethod_oops_do_unit id ⟨nmVisit, some ⟨7, oopsVisit⟩, true, 8⟩).1.gc_data =
      some ⟨7, oopsVisit⟩ :=
  ⟨(nmethod_oops_do_idempotent id ⟨nmVisit, some ⟨7, oopsVisit⟩, true, 8⟩
      ⟨7, oopsVisit⟩ rfl (fun v hv => hv)).1,
    (nmethod_oops_do_idempotent id ⟨nmVisit, some ⟨7, oopsVisit⟩, true, 8⟩
      ⟨7, oopsVisit⟩ rfl (fun v hv => hv)).2.1⟩

/-! ## The relocation walk of attach_gc_data -/

/-- Step equation: a non-oop relocation is skipped. -/
theorem collect_reloc_oops_cons_not_oop (nm : NMethod) (r : Relocation) (rs : List Relocation)
    (h : r.isOopType = false) :
    collect_reloc_oops nm (r :: rs) = collect_reloc_oops nm rs := by
  simp [collect_reloc_oops, h]

/-- Step equation: a non-immediate oop relocation only sets the flag. -/
theorem collect_reloc_oops_cons_non_imm (nm : NMethod) (r : Relocation) (rs : List Relocation)
    (h1 : r.isOopType = true) (h2 : r.isImmediate = false) :
    collect_reloc_oops nm (r :: rs) = ((collect_reloc_oops nm rs).1, true) := by
  simp [collect_reloc_oops, h1, h2]

/-- Step equation: a null-valued immediate oop relocation is skipped. -/
theorem collect_reloc_oops_cons_imm_null (nm : NMethod) (r : Relocation) (rs : List Relocation)
    (h1 : r.isOopType = true) (h2 : r.isImmediate = true) (h3 : nm.mem r.addr = Oop.null) :
    collect_reloc_oops nm (r :: rs) = collect_reloc_oops nm rs := by
  simp [collect_reloc_oops, h1, h2, h3]

/-- Step equation: a non-null immediate oop relocation pushes its slot
address. -/
theorem collect_reloc_oops_cons_imm_val (nm : NMethod) (r : Relocation) (rs : List Relocation)
    (h1 : r.isOopType = true) (h2 : r.isImmediate = true) (h3 : nm.mem r.addr ≠ Oop.null) :
    collect_reloc_oops nm (r :: rs) =
      (r.addr :: (collect_reloc_oops nm rs).1, (collect_reloc_oops nm rs).2) := by
  simp [collect_reloc_oops, h1, h2, h3]

/-- Which slot addresses the relocation walk records: exactly the
addresses of immediate oop relocations whose current value is non-null. -/
theorem mem_collect_reloc_oops (nm : NMethod) (rs : List Relocation) (a : Nat) :
    a ∈ (collect_reloc_oops nm rs).1 ↔
      ∃ r ∈ rs, r.isOopType = true ∧ r.isImmediate = true ∧
        nm.mem r.addr ≠ Oop.null ∧ r.addr = a := by
  induction rs with
  | nil => simp [collect_reloc_oops]
  | cons r rs ih =>
    cases hoop : r.isOopType with
    | false =>
      rw [collect_reloc_oops_cons_not_oop nm r rs hoop, ih]
      constructor
      · rintro ⟨r', hr', h⟩
        exact ⟨r', List.mem_cons_of_mem r hr', h⟩
      · rintro ⟨r', hr', h⟩
        rcases List.mem_cons.mp hr' with hr' | hr'
        · subst hr'
          simp [hoop] at h
        · exact ⟨r', hr', h⟩
    | true =>
      cases himm : r.isImmediate with
      | false =>
        rw [show a ∈ (collect_reloc_oops nm (r :: rs)).1 ↔
            a ∈ (collect_reloc_oops nm rs).1 by
          rw [collect_reloc_oops_cons_non_imm nm r rs hoop himm], ih]
        constructor
        · rintro ⟨r', hr', h⟩
          exact ⟨r', List.mem_cons_of_mem r hr', h⟩
        · rintro ⟨r', hr', h⟩
          rcases List.mem_cons.mp hr' with hr' | hr'
          · subst hr'
            simp [himm] at h
          · exact ⟨r', hr', h⟩
      | true =>
        by_cases hval : nm.mem r.addr = Oop.null
        · rw [collect_reloc_oops_cons_imm_null nm r rs hoop himm hval, ih]
          constructor
          · rintro ⟨r', hr', h⟩
            exact ⟨r', List.mem_cons_of_mem r hr', h⟩
          · rintro ⟨r', hr', h⟩
            rcases List.mem_cons.mp hr' with hr' | hr'
            · subst hr'
              exact absurd hval h.2.2.1
            · exact ⟨r', hr', h⟩
        · rw [show a ∈ (collect_reloc_oops nm (r :: rs)).1 ↔
              a ∈ r.addr :: (collect_reloc_oops nm rs).1 by
            rw [collect_reloc_oops_cons_imm_val nm r rs hoop himm hval], List.mem_cons, ih]
          constructor
          · rintro (ha | ⟨r', hr', h⟩)
            · exact ⟨r, List.mem_cons_self r rs, hoop, himm, hval, ha.symm⟩
            · exact ⟨r', List.mem_cons_of_mem r hr', h⟩
          · rintro ⟨r', hr', h⟩
            rcases List.mem_cons.mp hr' with hr' | hr'
            · subst hr'
              exact Or.inl h.2.2.2.symm
            · exact Or.inr ⟨r', hr', h⟩

/-- When the relocation walk reports non-immediate oops: exactly when some
non-immediate oop relocation exists. -/
theorem collect_reloc_oops_flag (nm : NMethod) (rs : List Relocation) :
    (collect_reloc_oops nm rs).2 = true ↔
      ∃ r ∈ rs, r.isOopType = true ∧ r.isImmediate = false := by
  induction rs with
  | nil => simp [collect_reloc_oops]
  | cons r rs ih =>
    cases hoop : r.isOopType with
    | false =>
      rw [collect_reloc_oops_cons_not_oop nm r rs hoop, ih]
      constructor
      · rintro ⟨r', hr', h⟩
        exact ⟨r', List.mem_cons_of_mem r hr', h⟩
      · rintro ⟨r', hr', h⟩
        rcases List.mem_cons.mp hr' with hr' | hr'
        · subst hr'
          simp [hoop] at h
        · exact ⟨r', hr', h⟩
    | true =>
      cases himm : r.isImmediate with
      | false =>
        rw [show (collect_reloc_oops nm (r :: rs)).2 = true by
          rw [collect_reloc_oops_cons_non_imm nm r rs hoop himm]]
        simp only [true_iff]
        exact ⟨r, List.mem_cons_self r rs, hoop, himm⟩
      | true =>
        have hstep : (collect_reloc_oops nm (r :: rs)).2 = (collect_reloc_oops nm rs).2 := by
          by_cases hval : nm.mem r.addr = Oop.null
          · rw [collect_reloc_oops_cons_imm_null nm r rs hoop himm hval]
          · rw [collect_reloc_oops_cons_imm_val nm r rs hoop himm hval]
        rw [hstep, ih]
        constructor
        · rintro ⟨r', hr', h⟩
          exact ⟨r', List.mem_cons_of_mem r hr', h⟩
        · rintro ⟨r', hr', h⟩
          rcases List.mem_cons.mp hr' with hr' | hr'
          · subst hr'
            simp [himm] at h
          · exact ⟨r', hr', h⟩

/-- Claim C4: `attach_gc_data` classifies the unit's oop relocations so
that the new snapshot's immediate list contains exactly the slot
addresses of immediate oop relocations whose current value is non-null
(null-valued immediates are skipped), and the snapshot's non-immediate
flag is set if and only if at least one non-immediate oop relocation
exists. -/
theorem attach_gc_data_classifies (s : UnitGlobal) :
    ∃ d : ZNMethodData, (attach_gc_data s).gc_data = some d ∧
      (∀ a, a ∈ d.oops.immediates ↔
        ∃ r ∈ s.nm.relocations, r.isOopType = true ∧ r.isImmediate = true ∧
          s.nm.mem r.addr ≠ Oop.null ∧ r.addr = a) ∧
      (d.oops.has_non_immediates = true ↔
        ∃ r ∈ s.nm.relocations, r.isOopType = true ∧ r.isImmediate = false) := by
  cases hgd : s.gc_data with
  | none =>
    refine ⟨⟨s.next_lock_id,
      ⟨(collect_reloc_oops s.nm s.nm.relocations).1,
        (collect_reloc_oops s.nm s.nm.relocations).2⟩⟩, ?_, ?_, ?_⟩
    · simp [attach_gc_data, hgd]
    · exact fun a => mem_collect_reloc_oops s.nm s.nm.relocations a
    · exact collect_reloc_oops_flag s.nm s.nm.relocations
  | some d0 =>
    refine ⟨⟨d0.lockId,
      ⟨(collect_reloc_oops s.nm s.nm.relocations).1,
        (collect_reloc_oops s.nm s.nm.relocations).2⟩⟩, ?_, ?_, ?_⟩
    · simp [attach_gc_data, hgd]
    · exact fun a => mem_collect_reloc_oops s.nm s.nm.relocations a
    · exact collect_reloc_oops_flag s.nm s.nm.relocations

/-- A concrete unit for the attach witness: an immediate oop relocation at
address 0 holding an object, an immediate oop relocation at address 2
holding null, a non-immediate oop relocation, and a non-oop relocation. -/
def nmAttach : NMethod :=
  { nmVisit with
    relocations :=
      [⟨true, true, 0⟩, ⟨true, true, 2⟩, ⟨true, false, 5⟩, ⟨false, true, 7⟩] }

/-- Witness for C4 at a concrete unit: address 0 (non-null immediate) is
recorded, address 2 (null immediate) is not, and the non-immediate flag
is set. -/
theorem attach_gc_data_classifies_witness :
    ∃ d : ZNMethodData,
      (attach_gc_data ⟨nmAttach, none, false, 0⟩).gc_data = some d ∧
        (0 ∈ d.oops.immediates ∧ ¬ 2 ∈ d.oops.immediates ∧
          d.oops.has_non_immediates = true) := by
  rcases attach_gc_data_classifies ⟨nmAttach, none, false, 0⟩ with ⟨d, hd, himm, hflag⟩
  refine ⟨d, hd, (himm 0).mpr ?_, fun h2 => ?_, hflag.mpr ?_⟩
  · exact ⟨⟨true, true, 0⟩, by decide, rfl, rfl, by decide, rfl⟩
  · rcases (himm 2).mp h2 with ⟨r, hr, hoop, himm2, hval, haddr⟩
    rw [haddr] at hval
    exact hval (by decide)
  · exact ⟨⟨true, false, 5⟩, by decide, rfl, rfl⟩

/-! ## Registration lifecycle -/

/-- Registration leaves the unit with an attached metadata record and in
the table. -/
theorem register_nmethod_state (s : UnitGlobal) :
    (register_nmethod s).gc_data = (attach_gc_data s).gc_data ∧
      (register_nmethod s).registered = true := by
  constructor <;> rfl

/-- Unregistration with the lock held always takes the non-fatal path. -/
theorem unregister_nmethod_locked (sw : Bool) (s : UnitGlobal) :
    unregister_nmethod true sw s =
      some ({ s with registered := false, gc_data := none },
        (if sw then [RegEvent.wait_until_iteration_done] else []) ++
          [RegEvent.table_unregister, RegEvent.detach]) := by
  cases sw <;> rfl

/-- Claim C6: `unregister_nmethod` fatally asserts when the caller does
not hold the code-cache lock; when invoked from the sweeper thread — and
only then — it first waits until any in-flight iteration is done; it then
removes the unit from the table and detaches (destroys) its metadata, in
that order. -/
theorem unregister_nmethod_spec (sw : Bool) (s : UnitGlobal) :
    unregister_nmethod false sw s = none ∧
    unregister_nmethod true true s =
      some ({ s with registered := false, gc_data := none },
        [RegEvent.wait_until_iteration_done, RegEvent.table_unregister, RegEvent.detach]) ∧
    unregister_nmethod true false s =
      some ({ s with registered := false, gc_data := none },
        [RegEvent.table_unregister, RegEvent.detach]) := by
  exact ⟨rfl, rfl, rfl⟩

/-- A plain concrete unit for lifecycle witnesses. -/
def nmPlain : NMethod :=
  { oopsTable := []
    mem := fun _ => Oop.null
    relocations := []
    alive := true
    unloading := false
    depsFlushed := false
    unlinkedFromMethod := false
    armed := true
    cachesCleared := false
    madeUnloaded := false }

/-- Witness for C6 at a concrete unit: without the lock the call is fatal;
from the sweeper the trace is wait, unregister, detach. -/
theorem unregister_nmethod_spec_witness :
    unregister_nmethod false true ⟨nmPlain, some ⟨0, ⟨[], false⟩⟩, true, 1⟩ = none ∧
    unregister_nmethod true true ⟨nmPlain, some ⟨0, ⟨[], false⟩⟩, true, 1⟩ =
      some (⟨nmPlain, none, false, 1⟩,
        [RegEvent.wait_until_iteration_done, RegEvent.table_unregister, RegEvent.detach]) :=
  ⟨(unregister_nmethod_spec true ⟨nmPlain, some ⟨0, ⟨[], false⟩⟩, true, 1⟩).1,
    (unregister_nmethod_spec true ⟨nmPlain, some ⟨0, ⟨[], false⟩⟩, true, 1⟩).2.1⟩

/-- Claim C5: the attachment invariant — the metadata record exists iff
the unit is in the registration table — is (re-)established by every
lifecycle operation and therefore holds after any sequence of them;
registration reuses an existing metadata record (same lock identity),
only swapping the snapshot, and creates a record (with the next fresh
lock identity) only when none exists; unregistration destroys the record
and clears the attachment slot. -/
theorem attach_invariant (s : UnitGlobal) :
    (∀ op : LifeOp, AttachInv (apply_life_op s op)) ∧
    (∀ ops : List LifeOp, AttachInv s → AttachInv (List.foldl apply_life_op s ops)) ∧
    (∀ d : ZNMethodData, s.gc_data = some d →
      ∃ oops2 : ZNMethodDataOops, (register_nmethod s).gc_data = some ⟨d.lockId, oops2⟩) ∧
    (s.gc_data = none →
      ∃ oops2 : ZNMethodDataOops,
        (register_nmethod s).gc_data = some ⟨s.next_lock_id, oops2⟩) ∧
    (∀ sw : Bool, ∀ s2 : UnitGlobal, ∀ tr : List RegEvent,
      unregister_nmethod true sw s = some (s2, tr) →
        s2.gc_data = none ∧ s2.registered = false) := by
  have hop : ∀ (t : UnitGlobal) (op : LifeOp), AttachInv (apply_life_op t op) := by
    intro t op
    cases op with
    | reg =>
      show (register_nmethod t).gc_data.isSome = (register_nmethod t).registered
      rw [(register_nmethod_state t).1, (register_nmethod_state t).2]
      cases hgd : t.gc_data with
      | none => simp [attach_gc_data, hgd]
      | some d => simp [attach_gc_data, hgd]
    | unreg sw =>
      show AttachInv (((unregister_nmethod true sw t).map Prod.fst).getD t)
      rw [unregister_nmethod_locked sw t]
      simp [AttachInv]
  refine ⟨hop s, ?_, ?_, ?_, ?_⟩
  · intro ops
    induction ops generalizing s with
    | nil => exact fun h => h
    | cons op ops ih =>
      intro _
      exact ih (apply_life_op s op) (hop s op)
  · intro d hd
    refine ⟨⟨(collect_reloc_oops s.nm s.nm.relocations).1,
      (collect_reloc_oops s.nm s.nm.relocations).2⟩, ?_⟩
    rw [(register_nmethod_state s).1]
    simp [attach_gc_data, hd]
  · intro hd
    refine ⟨⟨(collect_reloc_oops s.nm s.nm.relocations).1,
      (collect_reloc_oops s.nm s.nm.relocations).2⟩, ?_⟩
    rw [(register_nmethod_state s).1]
    simp [attach_gc_data, hd]
  · intro sw s2 tr h
    rw [unregister_nmethod_locked sw s] at h
    cases h
    exact ⟨rfl, rfl⟩

/-- Witness for C5 at a concrete unit: the invariant after the sequence
register, register, unregister, register; and re-registration of a unit
whose record has lock identity 5 keeps that identity. -/
theorem attach_invariant_witness :
    AttachInv (List.foldl apply_life_op ⟨nmPlain, none, false, 0⟩
      [LifeOp.reg, LifeOp.reg, LifeOp.unreg false, LifeOp.reg]) ∧
    (∃ oops2 : ZNMethodDataOops,
      (register_nmethod ⟨nmPlain, some ⟨5, ⟨[], false⟩⟩, true, 6⟩).gc_data =
        some ⟨5, oops2⟩) :=
  ⟨(attach_invariant ⟨nmPlain, none, false, 0⟩).2.1
      [LifeOp.reg, LifeOp.reg, LifeOp.unreg false, LifeOp.reg] rfl,
    (attach_invariant ⟨nmPlain, some ⟨5, ⟨[], false⟩⟩, true, 6⟩).2.2.1 ⟨5, ⟨[], false⟩⟩ rfl⟩

/-- Claim C9: `lock_for_nmethod` returns the lock owned by the unit's
metadata record when one is attached, and an empty result when the unit
has no metadata record — which, under the attachment invariant, is
exactly when the unit is not currently registered. -/
theorem lock_for_nmethod_spec (s : UnitGlobal) :
    (∀ d : ZNMethodData, s.gc_data = some d → lock_for_nmethod s = some d.lockId) ∧
    (s.gc_data = none → lock_for_nmethod s = none) ∧
    (AttachInv s → (lock_for_nmethod s = none ↔ s.registered = false)) := by
  refine ⟨fun d hd => ?_, fun hd => ?_, fun hinv => ?_⟩
  · simp [lock_for_nmethod, hd]
  · simp [lock_for_nmethod, hd]
  · cases hgd : s.gc_data with
    | none =>
      have : s.registered = false := by
        have := hinv
        simp only [AttachInv, hgd] at this
        exact this.symm
      simp [lock_for_nmethod, hgd, this]
    | some d =>
      have : s.registered = true := by
        have := hinv
        simp only [AttachInv, hgd] at this
        exact this.symm
      simp [lock_for_nmethod, hgd, this]

/-- Witness for C9 at concrete units: an attached record with lock
identity 3 is returned; a detached unit yields the empty result, and it
is unregistered. -/
theorem lock_for_nmethod_spec_witness :
    lock_for_nmethod ⟨nmPlain, some ⟨3, ⟨[], false⟩⟩, true, 4⟩ = some 3 ∧
    lock_for_nmethod ⟨nmPlain, none, false, 0⟩ = none ∧
    (lock_for_nmethod ⟨nmPlain, none, false, 0⟩ = none ↔
      (⟨nmPlain, none, false, 0⟩ : UnitGlobal).registered = false) :=
  ⟨(lock_for_nmethod_spec ⟨nmPlain, some ⟨3, ⟨[], false⟩⟩, true, 4⟩).1 ⟨3, ⟨[], false⟩⟩ rfl,
    (lock_for_nmethod_spec ⟨nmPlain, none, false, 0⟩).2.1 rfl,
    (lock_for_nmethod_spec ⟨nmPlain, none, false, 0⟩).2.2 rfl⟩

/-! ## The unlink closure and driver -/

/-- The shared failure flag after one unit: unchanged unless the unit is
alive, not unloading, and its cache-clearing call failed. -/
theorem unlink_do_nmethod_flag (heal : Oop → Oop) (uo : Bool) (failed : Bool)
    (s : UnitGlobal) (cache_ok : Bool) :
    (unlink_do_nmethod heal uo failed s cache_ok).2.1 =
      (failed || (s.nm.alive && !s.nm.unloading && !cache_ok)) := by
  cases failed with
  | true => simp [unlink_do_nmethod]
  | false =>
    cases halive : s.nm.alive with
    | false => simp [unlink_do_nmethod, halive]
    | true =>
      cases hunl : s.nm.unloading with
      | true => simp [unlink_do_nmethod, halive, hunl]
      | false =>
        cases cache_ok <;> simp [unlink_do_nmethod, halive, hunl]

/-- Claim C2: the per-unit step of an unlink pass (run under the unit's
metadata lock, which the sequential model does not need to represent).
With the shared failure flag still unset and the unit alive: an unloading
unit has its dependency records flushed and is unlinked from its defining
method, with none of healing, disarming, or cache release; a live
non-unloading unit is healed via the reference visitor, has its entry
barrier disarmed, and has its inline-cache/exception-cache entries
released (which may fail).  A unit that is not alive, or processed after
the failure flag is set, is skipped entirely. -/
theorem unlink_do_nmethod_spec (heal : Oop → Oop) (uo : Bool) (failed : Bool)
    (s : UnitGlobal) (cache_ok : Bool) :
    (failed = true → unlink_do_nmethod heal uo failed s cache_ok = (s, true, [])) ∧
    (failed = false → s.nm.alive = false →
      unlink_do_nmethod heal uo failed s cache_ok = (s, false, [])) ∧
    (failed = false → s.nm.alive = true → s.nm.unloading = true →
      unlink_do_nmethod heal uo failed s cache_ok =
        ({ s with nm := { s.nm with depsFlushed := true, unlinkedFromMethod := true } },
          false,
          [UnlinkEvent.flush_dependencies, UnlinkEvent.unlink_from_method])) ∧
    (failed = false → s.nm.alive = true → s.nm.unloading = false →
      unlink_do_nmethod heal uo failed s cache_ok =
        ({ (nmethod_oops_do_unit heal s).1 with
            nm := { disarm_nmethod (nmethod_oops_do_unit heal s).1.nm with
              cachesCleared := cache_ok } },
          !cache_ok,
          (nmethod_oops_do_unit heal s).2.map UnlinkEvent.oops ++
            [UnlinkEvent.disarm, UnlinkEvent.unload_caches cache_ok])) := by
  refine ⟨fun h1 => ?_, fun h1 h2 => ?_, fun h1 h2 h3 => ?_, fun h1 h2 h3 => ?_⟩
  · subst h1
    simp [unlink_do_nmethod]
  · subst h1
    simp [unlink_do_nmethod, h2]
  · subst h1
    simp [unlink_do_nmethod, h2, h3]
  · subst h1
    cases cache_ok <;> simp [unlink_do_nmethod, h2, h3, disarm_nmethod]

/-- A concrete alive, unloading unit (with its metadata attached). -/
def sUnloading : UnitGlobal :=
  ⟨{ nmPlain with unloading := true }, some ⟨0, ⟨[], false⟩⟩, true, 1⟩

/-- A concrete alive, non-unloading unit (with its metadata attached). -/
def sLive : UnitGlobal :=
  ⟨nmPlain, some ⟨0, ⟨[], false⟩⟩, true, 1⟩

/-- Witness for C2 at concrete units: the unloading unit's step is exactly
flush-dependencies then unlink-from-method; the live unit's step is heal
(no visits here: empty tables), disarm, and a successful cache release;
a unit hit after the failure flag is set is skipped. -/
theorem unlink_do_nmethod_spec_witness :
    unlink_do_nmethod id false false sUnloading true =
      ({ sUnloading with
          nm := { sUnloading.nm with depsFlushed := true, unlinkedFromMethod := true } },
        false, [UnlinkEvent.flush_dependencies, UnlinkEvent.unlink_from_method]) ∧
    unlink_do_nmethod id false false sLive true =
      ({ (nmethod_oops_do_unit id sLive).1 with
          nm := { disarm_nmethod (nmethod_oops_do_unit id sLive).1.nm with
            cachesCleared := true } },
        false,
        (nmethod_oops_do_unit id sLive).2.map UnlinkEvent.oops ++
          [UnlinkEvent.disarm, UnlinkEvent.unload_caches true]) ∧
    unlink_do_nmethod id false true sLive true = (sLive, true, []) :=
  ⟨(unlink_do_nmethod_spec id false false sUnloading true).2.2.1 rfl rfl rfl,
    (unlink_do_nmethod_spec id false false sLive true).2.2.2 rfl rfl rfl,
    (unlink_do_nmethod_spec id false true sLive true).1 rfl⟩

/-- A pass whose shared flag is already set does nothing: every remaining
unit is left untouched and no per-unit work is recorded. -/
theorem run_unlink_pass_from_failed (heal : Oop → Oop) (uo : Bool)
    (units : List (UnitGlobal × Bool)) :
    run_unlink_pass_from heal uo true units = (units.map Prod.fst, true, []) := by
  induction units with
  | nil => rfl
  | cons u us ih =>
    simp [run_unlink_pass_from, unlink_do_nmethod, ih]

/-- The pass's final flag: set exactly when some unit is alive, not
unloading, and had its cache-clearing call fail. -/
theorem run_unlink_pass_from_flag (heal : Oop → Oop) (uo : Bool) (f : Bool)
    (units : List (UnitGlobal × Bool)) :
    (run_unlink_pass_from heal uo f units).2.1 =
      (f || units.any fun u => u.1.nm.alive && !u.1.nm.unloading && !u.2) := by
  induction units generalizing f with
  | nil => simp [run_unlink_pass_from]
  | cons u us ih =>
    show (run_unlink_pass_from heal uo
        (unlink_do_nmethod heal uo f u.1 u.2).2.1 us).2.1 = _
    rw [ih, unlink_do_nmethod_flag]
    simp [Bool.or_assoc]

/-- Claim C3: the unlink driver returns only after a pass in which no
unit's cache-release step failed.  Whenever `unlink_fuel` returns, its
trace consists of some number of failed passes — each immediately
followed by leaving the suspendible thread set and refilling the IC stub
pool — and ends with a successful pass (each pass is run by a fresh
closure whose shared flag starts unset, per `run_unlink_pass`).  The
shared flag is set exactly by a failing cache-release step on a live
non-unloading unit, and once set the rest of the pass skips its work. -/
theorem unlink_spec (heal : Oop → Oop) (uo : Bool) (cache_oks : Nat → Nat → Bool) :
    (∀ fuel k units us tr,
      unlink_fuel heal uo cache_oks fuel k units = some (us, tr) →
        ∃ n, tr = List.flatten (List.replicate n
            [DriverEvent.pass_done false, DriverEvent.leave_sts,
              DriverEvent.refill_ic_stubs]) ++ [DriverEvent.pass_done true]) ∧
    (∀ units : List (UnitGlobal × Bool),
      (run_unlink_pass heal uo units).2.1 =
        units.any fun u => u.1.nm.alive && !u.1.nm.unloading && !u.2) ∧
    (∀ units : List (UnitGlobal × Bool),
      run_unlink_pass_from heal uo true units = (units.map Prod.fst, true, [])) := by
  refine ⟨?_, ?_, run_unlink_pass_from_failed heal uo⟩
  · intro fuel
    induction fuel with
    | zero => intro k units us tr h; exact absurd h (by simp [unlink_fuel])
    | succ fuel ih =>
      intro k units us tr h
      rw [unlink_fuel] at h
      by_cases hfail :
          (run_unlink_pass heal uo (with_cache_oks (cache_oks k) 0 units)).2.1 = true
      · rw [if_pos hfail] at h
        cases hrec : unlink_fuel heal uo cache_oks fuel (k + 1)
            (run_unlink_pass heal uo (with_cache_oks (cache_oks k) 0 units)).1 with
        | none => rw [hrec] at h; exact absurd h (by simp)
        | some r =>
          rw [hrec] at h
          rcases ih (k + 1) _ r.1 r.2 (by rw [hrec]) with ⟨n, hn⟩
          refine ⟨n + 1, ?_⟩
          have htr : tr = DriverEvent.pass_done false :: DriverEvent.leave_sts ::
              DriverEvent.refill_ic_stubs :: r.2 := by
            cases h
            rfl
          rw [htr, hn, List.replicate_succ, List.flatten]
          rfl
      · rw [if_neg hfail] at h
        cases h
        exact ⟨0, by simp⟩
  · intro units
    rw [run_unlink_pass, run_unlink_pass_from_flag]
    simp

/-- Witness for C3: a single live unit whose cache release fails on
attempt 0 and succeeds on attempt 1.  The driver's trace is one failed
pass, leave-STS, refill, then the successful pass; the theorem exhibits
it in the required shape, and the failing pass's flag is set. -/
theorem unlink_spec_witness :
    (∃ n, ([DriverEvent.pass_done false, DriverEvent.leave_sts,
        DriverEvent.refill_ic_stubs, DriverEvent.pass_done true] : List DriverEvent) =
      List.flatten (List.replicate n
        [DriverEvent.pass_done false, DriverEvent.leave_sts,
          DriverEvent.refill_ic_stubs]) ++ [DriverEvent.pass_done true]) ∧
    (run_unlink_pass id false [(sLive, false)]).2.1 = true :=
  ⟨(unlink_spec id false (fun k _ => decide (1 ≤ k))).1 3 0 [sLive]
      [⟨{ nmPlain with armed := false, cachesCleared := true },
        some ⟨0, ⟨[], false⟩⟩, true, 1⟩]
      [DriverEvent.pass_done false, DriverEvent.leave_sts,
        DriverEvent.refill_ic_stubs, DriverEvent.pass_done true] rfl,
    by rw [(unlink_spec id false (fun _ _ => true)).2.1 [(sLive, false)]]; rfl⟩

/-- Claim C10: a unit taken through the unloading branch never sets the
pass-level failure flag — the flag changes only on the fallible
cache-release step, reached only for live non-unloading units — and a
pass in which every alive unit is classified unloading succeeds on the
first attempt (its fresh flag is still unset at the end). -/
theorem unloading_branch_never_fails (heal : Oop → Oop) (uo : Bool) :
    (∀ (failed : Bool) (s : UnitGlobal) (cache_ok : Bool), s.nm.unloading = true →
      (unlink_do_nmethod heal uo failed s cache_ok).2.1 = failed) ∧
    (∀ units : List (UnitGlobal × Bool),
      (∀ u ∈ units, u.1.nm.alive = true → u.1.nm.unloading = true) →
        (run_unlink_pass heal uo units).2.1 = false) := by
  constructor
  · intro failed s cache_ok hunl
    rw [unlink_do_nmethod_flag, hunl]
    simp
  · intro units hall
    rw [run_unlink_pass, run_unlink_pass_from_flag]
    simp only [Bool.false_or, List.any_eq_false]
    intro u hu
    cases halive : u.1.nm.alive with
    | false => simp [halive]
    | true => simp [halive, hall u hu halive]

/-- Witness for C10: an unloading unit whose cache-clearing outcome is
marked failing does not set the flag, and a pass over one dead and one
unloading unit (both with failing outcomes) succeeds. -/
theorem unloading_branch_never_fails_witness :
    (unlink_do_nmethod id false false sUnloading false).2.1 = false ∧
    (run_unlink_pass id false
      [(⟨{ nmPlain with alive := false }, some ⟨0, ⟨[], false⟩⟩, true, 1⟩, false),
        (sUnloading, false)]).2.1 = false :=
  ⟨(unloading_branch_never_fails id false).1 false sUnloading false rfl,
    (unloading_branch_never_fails id false).2
      [(⟨{ nmPlain with alive := false }, some ⟨0, ⟨[], false⟩⟩, true, 1⟩, false),
        (sUnloading, false)]
      (by intro u hu; fin_cases hu <;> simp [sUnloading, nmPlain])⟩

/-! ## The purge closure and driver -/

/-- Claim C8: `purge` is a single pass (no retry, and the per-unit step is
a total function with no failure outcome) that finalizes — marks
unloaded — exactly the units that are still alive and still classified
unloading, and leaves every other unit untouched. -/
theorem purge_spec (units : List NMethod) :
    purge units = units.map purge_do_nmethod ∧
    (∀ nm : NMethod, nm.alive = true → nm.unloading = true →
      purge_do_nmethod nm = make_unloaded nm) ∧
    (∀ nm : NMethod, nm.alive = false ∨ nm.unloading = false →
      purge_do_nmethod nm = nm) := by
  refine ⟨rfl, fun nm h1 h2 => ?_, fun nm h => ?_⟩
  · simp [purge_do_nmethod, h1, h2]
  · rcases h with h | h <;> simp [purge_do_nmethod, h]

/-- Witness for C8 at concrete units: an alive unloading unit is marked
unloaded; an alive non-unloading unit is untouched. -/
theorem purge_spec_witness :
    purge_do_nmethod { nmPlain with unloading := true } =
      make_unloaded { nmPlain with unloading := true } ∧
    purge_do_nmethod nmPlain = nmPlain :=
  ⟨(purge_spec []).2.1 { nmPlain with unloading := true } rfl rfl,
    (purge_spec []).2.2 nmPlain (Or.inr rfl)⟩

end ZNM
